import Mathlib

set_option maxRecDepth 8000

/-!
Verification development for the build-time search-index plugin
(`@cmfcmf/docusaurus-search-local`, server side).  The definitions below are a
shallow embedding of the plugin's server entry point: route classification
(`urlMatchesPrefix`, `classifyRoute`), document assembly with sequentially
allocated ids (`assembleSched` / `assemble`), partitioning by Docusaurus tag
(`documentsByDocusaurusTag`), artifact serialization (`artifactSummaries`,
`indexRefs`) and the generated client tokenizer module (`buildGenerated`,
`zhTokenize`).  JavaScript strings are modelled by Lean `String`, with
`startsWith` / `endsWith` expressed on the character lists.
-/

namespace DSLA

/-- Model of JavaScript `url.startsWith(pre)`: the characters of `pre` are a
prefix of the characters of `s`. -/
def jsStartsWith (s pre : String) : Bool :=
  pre.data.isPrefixOf s.data

/-- Model of JavaScript `url.endsWith(suf)` via reversed character lists. -/
def jsEndsWith (s suf : String) : Bool :=
  suf.data.reverse.isPrefixOf s.data.reverse

/-- Embedding of `urlMatchesPrefix` (server/index.ts lines 28-40): throws when
the prefix starts or ends with a slash, otherwise accepts iff the prefix is
empty, the url equals it, or the url starts with it followed by a slash. -/
def urlMatchesPrefix (url pfx : String) : Except String Bool :=
  if jsStartsWith pfx "/" then
    Except.error ("prefix must not start with a /. This is a bug (url: " ++ url ++ ", prefix: " ++ pfx ++ ").")
  else if jsEndsWith pfx "/" then
    Except.error ("prefix must not end with a /. This is a bug (url: " ++ url ++ ", prefix: " ++ pfx ++ ").")
  else
    Except.ok (pfx == "" || url == pfx || jsStartsWith url (pfx ++ "/"))

/-- Embedding of `trimLeadingSlash` (lines 42-47): JavaScript `!path` is true
exactly for the empty string, and `path.slice(1)` drops one character. -/
def trimLeadingSlash (path : String) : String :=
  if path == "" || !(jsStartsWith path "/") then path else path.drop 1

/-- Embedding of `trimTrailingSlash` (lines 49-54); `path.slice(0, -1)` drops
the final character. -/
def trimTrailingSlash (path : String) : String :=
  if path == "" || !(jsEndsWith path "/") then path else path.dropRight 1

/-- The content types produced by route classification (the `type` field of the
records returned at lines 397-401, 429-433, 453-457). -/
inductive RouteType where
  | docs
  | blog
  | page
  deriving DecidableEq

/-- The options of one registered content plugin instance that the classifier
reads: `routeBasePath` and `tagsBasePath` (pages plugins only use the
former). -/
structure PluginCfg where
  routeBasePath : String
  tagsBasePath : String
  deriving DecidableEq

/-- The trimmed base path a plugin's routes are matched against
(e.g. lines 376-378). -/
def docsBaseOf (pc : PluginCfg) : String :=
  trimLeadingSlash (trimTrailingSlash pc.routeBasePath)

/-- The trimmed tag-listing path of a plugin, relative to the site root
(argument of lines 385-388 and 415-420). -/
def tagsFullOf (pc : PluginCfg) : String :=
  trimLeadingSlash (docsBaseOf pc ++ "/" ++ trimLeadingSlash (trimTrailingSlash pc.tagsBasePath))

/-- The trimmed debug-plugin path below a plugin's base path (argument of
lines 389-392, 421-424, 444-448). -/
def debugFullOf (pc : PluginCfg) : String :=
  trimLeadingSlash (docsBaseOf pc ++ "/__docusaurus")

/-- Outcome of one content type's plugin loop for a route: no instance
matched, the route was explicitly excluded (`return []`), or it was
classified (`return \x7b route, url, type \x7d`). -/
inductive LoopRes where
  | noMatch
  | excluded
  | hit
  deriving DecidableEq

/-- The docs-plugin loop at lines 375-403: first instance whose trimmed base
path matches wins; a match that is also under the tag-listing path or the
debug path is excluded. -/
def docsLoop (route : String) : List PluginCfg → Except String LoopRes
  | [] => Except.ok LoopRes.noMatch
  | pc :: rest => do
    let m ← urlMatchesPrefix route (docsBaseOf pc)
    if m then
      if (← urlMatchesPrefix route (tagsFullOf pc)) then
        Except.ok LoopRes.excluded
      else if (← urlMatchesPrefix route (debugFullOf pc)) then
        Except.ok LoopRes.excluded
      else
        Except.ok LoopRes.hit
    else
      docsLoop route rest

/-- The blog-plugin loop at lines 406-435: like the docs loop but the blog
listing page itself (`route === blogBasePath`) is also excluded. -/
def blogLoop (route : String) : List PluginCfg → Except String LoopRes
  | [] => Except.ok LoopRes.noMatch
  | pc :: rest => do
    let m ← urlMatchesPrefix route (docsBaseOf pc)
    if m then
      if route == docsBaseOf pc then
        Except.ok LoopRes.excluded
      else if (← urlMatchesPrefix route (tagsFullOf pc)) then
        Except.ok LoopRes.excluded
      else if (← urlMatchesPrefix route (debugFullOf pc)) then
        Except.ok LoopRes.excluded
      else
        Except.ok LoopRes.hit
    else
      blogLoop route rest

/-- The pages-plugin loop at lines 438-459: only the debug path is excluded. -/
def pagesLoop (route : String) : List PluginCfg → Except String LoopRes
  | [] => Except.ok LoopRes.noMatch
  | pc :: rest => do
    let m ← urlMatchesPrefix route (docsBaseOf pc)
    if m then
      if (← urlMatchesPrefix route (debugFullOf pc)) then
        Except.ok LoopRes.excluded
      else
        Except.ok LoopRes.hit
    else
      pagesLoop route rest

/-- The classifier configuration: the three `indexX` options and the
registered plugin instances of each content type, in registration order. -/
structure ClassifyCfg where
  indexDocs : Bool
  indexBlog : Bool
  indexPages : Bool
  docsPlugins : List PluginCfg
  blogPlugins : List PluginCfg
  pagesPlugins : List PluginCfg
  deriving DecidableEq

/-- Embedding of the per-route body of the `flatMap` at lines 361-463 (after
the base-url strip): the 404 page is dropped, then the docs, blog and pages
loops run in that order; `excluded` stops classification, `noMatch` falls
through to the next content type. -/
def classifyRoute (cfg : ClassifyCfg) (route : String) : Except String (Option RouteType) :=
  if route == "404.html" then Except.ok none
  else do
    let dres ← if cfg.indexDocs then docsLoop route cfg.docsPlugins else Except.ok LoopRes.noMatch
    match dres with
    | LoopRes.hit => Except.ok (some RouteType.docs)
    | LoopRes.excluded => Except.ok none
    | LoopRes.noMatch => do
      let bres ← if cfg.indexBlog then blogLoop route cfg.blogPlugins else Except.ok LoopRes.noMatch
      match bres with
      | LoopRes.hit => Except.ok (some RouteType.blog)
      | LoopRes.excluded => Except.ok none
      | LoopRes.noMatch => do
        let pres ← if cfg.indexPages then pagesLoop route cfg.pagesPlugins else Except.ok LoopRes.noMatch
        match pres with
        | LoopRes.hit => Except.ok (some RouteType.page)
        | LoopRes.excluded => Except.ok none
        | LoopRes.noMatch => Except.ok none

/-- One section returned by the external `html2text` extractor for a page. -/
structure SectionData where
  hash : String
  title : String
  content : String
  tags : List String
  deriving DecidableEq

/-- One classified page together with the data the external extractors return
for it (page title, section list, Docusaurus tag, sidebar ancestor
categories). -/
structure PageData where
  url : String
  pageTitle : String
  sections : List SectionData
  docusaurusTag : String
  docSidebarParentCategories : Option (List String)
  type : RouteType
  deriving DecidableEq

/-- The per-section document record built at lines 489-500. -/
structure Doc where
  id : Nat
  pageTitle : String
  pageRoute : String
  sectionRoute : String
  sectionTitle : String
  sectionContent : String
  sectionTags : List String
  docusaurusTag : String
  docSidebarParentCategories : Option (List String)
  type : RouteType
  deriving DecidableEq

/-- The documents of one page, with ids allocated consecutively from `start`
(the synchronous `sections.map` with `nextDocId++` at lines 489-500). -/
def pageDocs (start : Nat) (p : PageData) : List Doc :=
  p.sections.enum.map (fun ks =>
    { id := start + ks.1
      pageTitle := p.pageTitle
      pageRoute := p.url
      sectionRoute := p.url ++ ks.2.hash
      sectionTitle := ks.2.title
      sectionContent := ks.2.content
      sectionTags := ks.2.tags
      docusaurusTag := p.docusaurusTag
      docSidebarParentCategories := p.docSidebarParentCategories
      type := p.type })

/-- Number of sections of the page at index `i` (0 when out of range). -/
def sectionCountAt (pages : List PageData) (i : Nat) : Nat :=
  ((pages[i]?).map (fun p => p.sections.length)).getD 0

/-- First id handed to page `i` when the concurrent file reads complete in the
order `sched`: the shared counter `nextDocId` (line 479) starts at 1 and has
been advanced by every page whose read completed earlier. -/
def startIdOf (pages : List PageData) (sched : List Nat) (i : Nat) : Nat :=
  1 + ((sched.takeWhile (fun j => j != i)).map (sectionCountAt pages)).sum

/-- The assembly phase at lines 479-503, as a function of the completion order
`sched` of the concurrently issued file reads: each page's block of ids is
allocated when its read completes, and the final `documents` array is the
route-ordered flattening of the per-page section lists. -/
def assembleSched (pages : List PageData) (sched : List Nat) : List Doc :=
  (pages.enum.map (fun ip => pageDocs (startIdOf pages sched ip.1) ip.2)).flatten

/-- Total number of sections over all pages (total number of documents). -/
def totalSections (pages : List PageData) : Nat :=
  (pages.map (fun p => p.sections.length)).sum

/-- The sequential denotation of the assembly phase: reads complete in the
order they were issued (route order). -/
def assemble (pages : List PageData) : List Doc :=
  assembleSched pages (List.range pages.length)

/-- One step of the `reduce` at lines 505-512: push the document onto its
tag's entry of the accumulator object, creating the entry (at the end, as a
fresh object key) when absent. -/
def insertDoc : List (String × List Doc) → Doc → List (String × List Doc)
  | [], d => [(d.docusaurusTag, [d])]
  | tg :: rest, d =>
    if tg.1 == d.docusaurusTag then (tg.1, tg.2 ++ [d]) :: rest
    else tg :: insertDoc rest d

/-- Embedding of `documentsByDocusaurusTag` (lines 505-512): group the
document list by `docusaurusTag`, preserving input order inside each group. -/
def documentsByDocusaurusTag (docs : List Doc) : List (String × List Doc) :=
  docs.foldl insertDoc []

/-- Lookup of one tag's group in the grouping (object property access). -/
def lookupTag (m : List (String × List Doc)) (t : String) : Option (List Doc) :=
  (m.find? (fun tg => tg.1 == t)).map (fun tg => tg.2)

/-- The keys of the grouping object. -/
def tagKeys (m : List (String × List Doc)) : List String :=
  m.map Prod.fst

/-- The serialized per-document summary (type `MyDocument`, written at
lines 583-613). -/
structure MyDocument where
  id : Nat
  pageTitle : String
  sectionTitle : String
  sectionRoute : String
  type : RouteType
  deriving DecidableEq

/-- The summary record of one document (lines 584-612): the display title is
prefixed with the ancestor categories only when the option is on and the list
is present and non-empty. -/
def summaryOf (includeParentCategoriesInPageTitle : Bool) (d : Doc) : MyDocument :=
  let fullTitle :=
    if includeParentCategoriesInPageTitle
        && (match d.docSidebarParentCategories with
            | some l => decide (0 < l.length)
            | none => false) then
      String.intercalate " > " (d.docSidebarParentCategories.getD [] ++ [d.pageTitle])
    else d.pageTitle
  { id := d.id
    pageTitle := fullTitle
    sectionTitle := d.sectionTitle
    sectionRoute := d.sectionRoute
    type := d.type }

/-- The `documents` array of one partition's artifact. -/
def artifactSummaries (includeParentCategoriesInPageTitle : Bool) (docs : List Doc) : List MyDocument :=
  docs.map (summaryOf includeParentCategoriesInPageTitle)

/-- Modelled from the spec: the lunr index object itself comes from the
bundled `lunr.js`, which is not among these sources; per the spec the index's
reference field resolves documents by the string `ref` passed to `add`.  The
build loop at lines 541 and 550-577 declares `this.ref("id")` and adds each
document of the partition exactly once with `id.toString()` as its ref, so
the index's internal document references are the stringified ids of the
partition's documents in input order. -/
def indexRefs (docs : List Doc) : List String :=
  docs.map (fun d => toString d.id)

/-- The synthesized ancestor-categories index field of one document
(lines 558-567): defined only when the configured depth is positive and the
document carries an ancestor list; the value is the list reversed to
leaf-first, truncated to the depth, and space-joined. -/
def sidebarParentCategoriesOf (indexDocSidebarParentCategories : Nat)
    (cats : Option (List String)) : Option String :=
  if 0 < indexDocSidebarParentCategories then
    cats.map (fun l => String.intercalate " " (l.reverse.take indexDocSidebarParentCategories))
  else none

/-- The `language` option after validation: a single locale code or an array
of codes. -/
inductive LangConfig where
  | single (code : String)
  | multi (codes : List String)
  deriving DecidableEq

/-- Lines 191-193: a one-element language array is collapsed to its single
code before anything else looks at the option. -/
def normalizeLanguage : LangConfig → LangConfig
  | LangConfig.multi [c] => LangConfig.single c
  | l => l

/-- The `require("lunr-languages/lunr.stemmer.support")` line emitted at
line 229. -/
def stemmerSupportLine : String :=
  "require(\"lunr-languages/lunr.stemmer.support\")(lunr);\n"

/-- Embedding of `handleLangCode` (lines 205-225): rejects the deprecated
code `jp`, loads the auxiliary segmenter for `ja` (tinyseg) and the word-cut
table for `th`/`hi`, then loads the language extension; returns the module
text appended to `generated`. -/
def handleLangCode (code : String) : Except String String :=
  if code == "jp" then
    Except.error "Language \"jp\" is deprecated, please use \"ja\"."
  else
    Except.ok
      ((if code == "ja" then "require(\"lunr-languages/tinyseg\")(lunr);\n"
        else if code == "th" || code == "hi" then "lunr.wordcut = require(\"lunr-languages/wordcut\");\n"
        else "")
        ++ "require(\"lunr-languages/lunr." ++ code ++ "\")(lunr);\n")

/-- The language-loading part of the generated module (lines 227-241):
nothing for plain `en`; stemmer support plus the language extension for one
non-English code; stemmer support, every non-`en` member's extension and the
multi-language combinator for an array. -/
def languagePreamble : LangConfig → Except String String
  | LangConfig.single "en" => Except.ok ""
  | LangConfig.single c => do
    let s ← handleLangCode c
    Except.ok (stemmerSupportLine ++ s)
  | LangConfig.multi codes => do
    let snippets ← (codes.filter (fun c => c != "en")).mapM handleLangCode
    Except.ok (stemmerSupportLine ++ String.join snippets
      ++ "require(\"lunr-languages/lunr.multi\")(lunr);\n")

/-- The `tokenize` export of the generated module (lines 242-271): the plain
fallback for `zh` (with the custom separator source, or the default
`/[\s\-]+/`), the lunr language tokenizer for `ja`/`th` (rejecting a custom
separator), and the default lunr tokenizer (with an optional separator
override) for everything else. -/
def tokenizeSnippet : LangConfig → Option String → Except String String
  | LangConfig.single "zh", sep =>
    Except.ok ("export const tokenize = (input) => input.trim().toLowerCase()\n  .split("
      ++ (match sep with | some s => s | none => "/[\\s\\-]+/")
      ++ ")\n  .filter(each => !!each);\n")
  | LangConfig.single "ja", some _ =>
    Except.error "The lunr.tokenizerSeparator option is not supported for 'ja' and 'th'"
  | LangConfig.single "th", some _ =>
    Except.error "The lunr.tokenizerSeparator option is not supported for 'ja' and 'th'"
  | LangConfig.single "ja", none =>
    Except.ok "export const tokenize = (input) => lunr[\"ja\"].tokenizer(input)\n  .map(token => token.str);\n"
  | LangConfig.single "th", none =>
    Except.ok "export const tokenize = (input) => lunr[\"th\"].tokenizer(input)\n  .map(token => token);\n"
  | _, some s =>
    Except.ok ("lunr.tokenizer.separator = " ++ s
      ++ ";\nexport const tokenize = (input) => lunr.tokenizer(input)\n  .map(token => token.str);\n")
  | _, none =>
    Except.ok "export const tokenize = (input) => lunr.tokenizer(input)\n  .map(token => token.str);\n"

/-- The generated client module text built by the plugin constructor
(lines 186-272), as a function of the `style` option (`styleNone` means
`style: "none"`), the `language` option and the optional
`lunr.tokenizerSeparator` source text.  Construction fails exactly where the
constructor throws. -/
def buildGenerated (styleNone : Bool) (language0 : LangConfig) (sep : Option String) :
    Except String String := do
  let language := normalizeLanguage language0
  let header := "// THIS FILE IS AUTOGENERATED\n// DO NOT EDIT THIS FILE!\n\n"
  let styleImports :=
    if styleNone then ""
    else "import \"@algolia/autocomplete-theme-classic\";\nimport \"./index.css\";\n"
  let requireLunr := "const lunr = require(\"../../../lunr.js\");\n"
  let pre ← languagePreamble language
  let tok ← tokenizeSnippet language sep
  Except.ok (header ++ styleImports ++ requireLunr ++ pre ++ tok
    ++ "export const mylunr = lunr;\n")

/-- The `use` call the index builder makes while constructing one lunr index
(lines 527-535): nothing for `en`, the multi-language combinator for an
array, the single language extension otherwise. -/
inductive LunrUse where
  | defaultEnglish
  | multiLanguage (codes : List String)
  | singleLanguage (code : String)
  deriving DecidableEq

/-- Which tokenization path the index build takes for a language option
(lines 528-535, reading the constructor-normalized `language` variable). -/
def indexUseOf : LangConfig → LunrUse
  | LangConfig.single c =>
    if c == "en" then LunrUse.defaultEnglish else LunrUse.singleLanguage c
  | LangConfig.multi codes => LunrUse.multiLanguage codes

/-- The index-construction path as seen from the plugin options: the closure
captures the `language` variable after the singleton-array collapse at
lines 191-193. -/
def pluginIndexUse (language0 : LangConfig) : LunrUse :=
  indexUseOf (normalizeLanguage language0)

/-- True exactly for the multi-language union path. -/
def isMultiUse : LunrUse → Bool
  | LunrUse.multiLanguage _ => true
  | _ => false

/-- A character matched by the default tokenizer separator `/[\s\-]+/`:
whitespace or a hyphen. -/
def zhDefaultSeparator (c : Char) : Bool :=
  c.isWhitespace || c == '-'

/-- Fuel-indexed worker for `splitRuns`; the fuel only bounds the recursion
depth (one unit per separator run) and never runs out when it exceeds the
input length. -/
def splitRunsFuel (p : Char → Bool) : Nat → List Char → List (List Char)
  | 0, _ => []
  | fuel + 1, cs =>
    match cs.dropWhile (fun c => !(p c)) with
    | [] => [cs.takeWhile (fun c => !(p c))]
    | _ :: rs => cs.takeWhile (fun c => !(p c)) :: splitRunsFuel p fuel (rs.dropWhile p)

/-- Splitting a character list at maximal runs of separator characters, the
way JavaScript `String.prototype.split` behaves on a one-character-class
regex with a `+` quantifier: pieces between matches are kept, including the
empty pieces produced when the input starts or ends with a separator run. -/
def splitRuns (p : Char → Bool) (cs : List Char) : List (List Char) :=
  splitRunsFuel p (cs.length + 1) cs

/-- Model of JavaScript `String.prototype.trim`: drop whitespace from both
ends of the character list. -/
def jsTrim (cs : List Char) : List Char :=
  ((cs.dropWhile Char.isWhitespace).reverse.dropWhile Char.isWhitespace).reverse

/-- Model of JavaScript `String.prototype.toLowerCase`, characterwise. -/
def jsToLowerCase (cs : List Char) : List Char :=
  cs.map Char.toLower

/-- Semantics of the consuming tokenizer emitted for `zh` (lines 245-251):
trim, lowercase, split on the separator, drop empty tokens. -/
def zhTokenize (sepChar : Char → Bool) (input : String) : List String :=
  ((splitRuns sepChar (jsToLowerCase (jsTrim input.data))).map (fun cs => String.mk cs)).filter
    (fun t => t != "")

/-- A one-section demo page content used for concrete runs. -/
def demoSection : SectionData :=
  { hash := "#intro", title := "Intro", content := "text", tags := [] }

/-- First demo page (route order position 0). -/
def demoPageA : PageData :=
  { url := "/docs/a", pageTitle := "A", sections := [demoSection],
    docusaurusTag := "default", docSidebarParentCategories := none, type := RouteType.docs }

/-- Second demo page (route order position 1). -/
def demoPageB : PageData :=
  { url := "/docs/b", pageTitle := "B", sections := [demoSection],
    docusaurusTag := "default", docSidebarParentCategories := none, type := RouteType.docs }

/-- A two-page build input with one section per page. -/
def demoPages : List PageData := [demoPageA, demoPageB]

/-- A docs instance mounted at the site root (docs-only mode,
`routeBasePath: "/"`), together with a blog instance at `/blog`. -/
def rootDocsCfg : ClassifyCfg :=
  { indexDocs := true, indexBlog := true, indexPages := false,
    docsPlugins := [{ routeBasePath := "/", tagsBasePath := "/tags" }],
    blogPlugins := [{ routeBasePath := "/blog", tagsBasePath := "/tags" }],
    pagesPlugins := [] }

/-- An ordinary docs instance at `/docs` with tag pages at `/docs/tags`. -/
def plainDocsPlugin : PluginCfg := { routeBasePath := "/docs", tagsBasePath := "/tags" }

/-- A configuration with just the `/docs` instance. -/
def plainDocsCfg : ClassifyCfg :=
  { indexDocs := true, indexBlog := false, indexPages := false,
    docsPlugins := [plainDocsPlugin], blogPlugins := [], pagesPlugins := [] }

/-! ### Helper lemmas about the tag grouping -/

theorem lookupTag_cons (tg : String × List Doc) (rest : List (String × List Doc)) (t : String) :
    lookupTag (tg :: rest) t = if tg.1 == t then some tg.2 else lookupTag rest t := by
  cases h : tg.1 == t <;> simp [lookupTag, List.find?_cons, h]

theorem lookupTag_insertDoc (acc : List (String × List Doc)) (d : Doc) (t : String) :
    lookupTag (insertDoc acc d) t =
      if d.docusaurusTag == t then some ((lookupTag acc t).getD [] ++ [d])
      else lookupTag acc t := by
  induction acc with
  | nil =>
    by_cases h : d.docusaurusTag = t
    · simp [insertDoc, lookupTag_cons, lookupTag, h]
    · simp [insertDoc, lookupTag_cons, lookupTag, h]
  | cons tg rest ih =>
    rw [insertDoc]
    by_cases htg : tg.1 = d.docusaurusTag
    · rw [if_pos (by simp [htg])]
      rw [lookupTag_cons, lookupTag_cons]
      by_cases ht : tg.1 = t
      · have hdt : d.docusaurusTag = t := htg.symm.trans ht
        simp [ht, hdt]
      · have hdt : ¬ d.docusaurusTag = t := fun hh => ht (htg.trans hh)
        simp [ht, hdt]
    · rw [if_neg (by simp [htg])]
      rw [lookupTag_cons, lookupTag_cons, ih]
      by_cases ht : tg.1 = t
      · have hdt : ¬ d.docusaurusTag = t := fun hh => htg (ht.trans hh.symm)
        simp [ht, hdt]
      · simp [ht]

theorem lookupTag_foldl (docs : List Doc) :
    ∀ (acc : List (String × List Doc)) (t : String),
    lookupTag (List.foldl insertDoc acc docs) t =
      match lookupTag acc t with
      | some l => some (l ++ docs.filter (fun d => d.docusaurusTag == t))
      | none =>
        if docs.filter (fun d => d.docusaurusTag == t) = [] then none
        else some (docs.filter (fun d => d.docusaurusTag == t)) := by
  induction docs with
  | nil =>
    intro acc t
    cases h : lookupTag acc t <;> simp [h]
  | cons d docs ih =>
    intro acc t
    rw [List.foldl_cons, ih, lookupTag_insertDoc]
    by_cases hd : d.docusaurusTag = t
    · cases h : lookupTag acc t <;> simp [hd, h, List.filter_cons]
    · cases h : lookupTag acc t <;> simp [hd, h, List.filter_cons]

theorem lookupTag_grouping (docs : List Doc) (t : String) :
    lookupTag (documentsByDocusaurusTag docs) t =
      if docs.filter (fun d => d.docusaurusTag == t) = [] then none
      else some (docs.filter (fun d => d.docusaurusTag == t)) := by
  rw [documentsByDocusaurusTag, lookupTag_foldl]
  rfl

theorem snd_flatten_insertDoc (acc : List (String × List Doc)) (d : Doc) :
    ((insertDoc acc d).map Prod.snd).flatten.length
      = ((acc.map Prod.snd).flatten).length + 1 := by
  induction acc with
  | nil => simp [insertDoc]
  | cons tg rest ih =>
    rw [insertDoc]
    by_cases h : tg.1 = d.docusaurusTag
    · rw [if_pos (by simp [h])]
      simp [List.length_append]
      omega
    · rw [if_neg (by simp [h])]
      simp only [List.map_cons, List.flatten_cons, List.length_append]
      rw [ih]
      omega

theorem snd_flatten_foldl (docs : List Doc) :
    ∀ acc : List (String × List Doc),
    ((List.foldl insertDoc acc docs).map Prod.snd).flatten.length
      = (acc.map Prod.snd).flatten.length + docs.length := by
  induction docs with
  | nil => intro acc; simp
  | cons d docs ih =>
    intro acc
    rw [List.foldl_cons, ih (insertDoc acc d), snd_flatten_insertDoc]
    simp
    omega

theorem mem_tagKeys_insertDoc (acc : List (String × List Doc)) (d : Doc) (t : String) :
    t ∈ tagKeys (insertDoc acc d) ↔ t ∈ tagKeys acc ∨ t = d.docusaurusTag := by
  induction acc with
  | nil => simp [insertDoc, tagKeys]
  | cons tg rest ih =>
    rw [insertDoc]
    by_cases h : tg.1 = d.docusaurusTag
    · rw [if_pos (by simp [h])]
      simp only [tagKeys, List.map_cons, List.mem_cons]
      constructor
      · intro hh; exact Or.inl hh
      · rintro ((hh | hh) | hh)
        · exact Or.inl hh
        · exact Or.inr hh
        · exact Or.inl (hh.trans h.symm)
    · rw [if_neg (by simp [h])]
      simp only [tagKeys, List.map_cons, List.mem_cons] at *
      rw [ih]
      tauto

theorem tagKeys_nodup_insertDoc (acc : List (String × List Doc)) (d : Doc)
    (h : (tagKeys acc).Nodup) : (tagKeys (insertDoc acc d)).Nodup := by
  induction acc with
  | nil => simp [insertDoc, tagKeys]
  | cons tg rest ih =>
    simp only [tagKeys, List.map_cons, List.nodup_cons] at h
    rw [insertDoc]
    by_cases hh : tg.1 = d.docusaurusTag
    · rw [if_pos (by simp [hh])]
      simp only [tagKeys, List.map_cons, List.nodup_cons]
      exact ⟨h.1, h.2⟩
    · rw [if_neg (by simp [hh])]
      simp only [tagKeys, List.map_cons, List.nodup_cons]
      refine ⟨?_, ih h.2⟩
      intro hmem
      rcases (mem_tagKeys_insertDoc rest d tg.1).mp hmem with hm | hm
      · exact h.1 hm
      · exact hh hm

theorem tagKeys_nodup_foldl (docs : List Doc) :
    ∀ acc : List (String × List Doc), (tagKeys acc).Nodup →
    (tagKeys (List.foldl insertDoc acc docs)).Nodup := by
  induction docs with
  | nil => intro acc h; simpa using h
  | cons d docs ih =>
    intro acc h
    rw [List.foldl_cons]
    exact ih (insertDoc acc d) (tagKeys_nodup_insertDoc acc d h)

theorem grouping_tagKeys_nodup (docs : List Doc) :
    (tagKeys (documentsByDocusaurusTag docs)).Nodup :=
  tagKeys_nodup_foldl docs [] (by simp [tagKeys])

theorem lookupTag_of_mem (m : List (String × List Doc)) (t : String) (g : List Doc)
    (hn : (tagKeys m).Nodup) (h : (t, g) ∈ m) : lookupTag m t = some g := by
  induction m with
  | nil => cases h
  | cons tg rest ih =>
    simp only [tagKeys, List.map_cons, List.nodup_cons] at hn
    rcases List.mem_cons.mp h with h1 | h1
    · rw [← h1, lookupTag_cons]
      simp
    · have hne : tg.1 ≠ t := by
        intro he
        apply hn.1
        have hmem : t ∈ tagKeys rest := List.mem_map.mpr ⟨(t, g), h1, rfl⟩
        simp only [tagKeys] at hmem
        rw [he]
        exact hmem
      rw [lookupTag_cons]
      have hb : (tg.1 == t) = false := by
        simp [hne]
      rw [hb]
      simp only [Bool.false_eq_true, if_false]
      exact ih hn.2 h1

theorem mem_grouping_eq_filter (docs : List Doc) (t : String) (g : List Doc)
    (h : (t, g) ∈ documentsByDocusaurusTag docs) :
    g = docs.filter (fun d => d.docusaurusTag == t) := by
  have h1 := lookupTag_of_mem _ t g (grouping_tagKeys_nodup docs) h
  rw [lookupTag_grouping] at h1
  by_cases he : docs.filter (fun d => d.docusaurusTag == t) = []
  · rw [if_pos he] at h1
    cases h1
  · rw [if_neg he] at h1
    exact (Option.some.injEq _ _ ▸ h1).symm

/-! ### Helper lemmas about id assignment -/

theorem pageDocs_map_id (start : Nat) (p : PageData) :
    (pageDocs start p).map Doc.id = List.range' start p.sections.length := by
  have h : (pageDocs start p).map Doc.id
      = p.sections.enum.map ((fun x => start + x) ∘ Prod.fst) := by
    rw [pageDocs, List.map_map]
    rfl
  rw [h, ← List.map_map, List.enum_map_fst, ← List.range'_eq_map_range]

theorem sectionCountAt_of_mem_enum (pages : List PageData) (ip : Nat × PageData)
    (h : ip ∈ pages.enum) : sectionCountAt pages ip.1 = ip.2.sections.length := by
  have h1 := List.mem_enum_iff_getElem?.mp h
  simp [sectionCountAt, h1]

theorem assembleSched_map_id (pages : List PageData) (sched : List Nat) :
    (assembleSched pages sched).map Doc.id
      = ((List.range pages.length).map
          (fun i => List.range' (startIdOf pages sched i) (sectionCountAt pages i))).flatten := by
  rw [assembleSched, List.map_flatten, List.map_map]
  have h1 : pages.enum.map (List.map Doc.id ∘ fun ip => pageDocs (startIdOf pages sched ip.1) ip.2)
      = pages.enum.map (fun ip => List.range' (startIdOf pages sched ip.1) (sectionCountAt pages ip.1)) := by
    apply List.map_congr_left
    intro ip hip
    simp only [Function.comp_apply]
    rw [pageDocs_map_id, sectionCountAt_of_mem_enum pages ip hip]
  rw [h1]
  have h2 : pages.enum.map
        (fun ip => List.range' (startIdOf pages sched ip.1) (sectionCountAt pages ip.1))
      = (pages.enum.map Prod.fst).map
          (fun i => List.range' (startIdOf pages sched i) (sectionCountAt pages i)) := by
    rw [List.map_map]
    rfl
  rw [h2, List.enum_map_fst]

theorem flatten_blocks (c : Nat → Nat) :
    ∀ (σ : List Nat) (b : Nat), σ.Nodup →
    (σ.map (fun i =>
        List.range' (b + ((σ.takeWhile (fun j => j != i)).map c).sum) (c i))).flatten
      = List.range' b ((σ.map c).sum) := by
  intro σ
  induction σ with
  | nil => intro b _; simp
  | cons a σ ih =>
    intro b hnd
    rw [List.nodup_cons] at hnd
    rw [List.map_cons, List.flatten_cons]
    have hhead : ((a :: σ).takeWhile (fun j => j != a)) = ([] : List Nat) := by
      simp [List.takeWhile_cons]
    have htail : σ.map (fun i =>
          List.range' (b + (((a :: σ).takeWhile (fun j => j != i)).map c).sum) (c i))
        = σ.map (fun i =>
          List.range' ((b + c a) + ((σ.takeWhile (fun j => j != i)).map c).sum) (c i)) := by
      apply List.map_congr_left
      intro i hi
      have hne : (a != i) = true := by
        have hai : a ≠ i := fun he => hnd.1 (he ▸ hi)
        simp [hai]
      rw [List.takeWhile_cons, if_pos hne]
      rw [List.map_cons, List.sum_cons, ← Nat.add_assoc]
    rw [hhead]
    rw [htail, ih (b + c a) hnd.2]
    simp only [List.map_nil, List.sum_nil, Nat.add_zero]
    have happ := List.range'_append b (c a) ((σ.map c).sum) 1
    rw [one_mul] at happ
    rw [happ, List.map_cons, List.sum_cons, Nat.add_comm]

theorem range_map_sectionCountAt (pages : List PageData) :
    (List.range pages.length).map (sectionCountAt pages)
      = pages.map (fun p => p.sections.length) := by
  apply List.ext_getElem
  · simp
  · intro i h1 h2
    simp only [List.getElem_map, List.getElem_range]
    rw [sectionCountAt, List.getElem?_eq_getElem (by simpa using h2)]
    simp

theorem assemble_map_id (pages : List PageData) :
    (assemble pages).map Doc.id = List.range' 1 (totalSections pages) := by
  rw [assemble, assembleSched_map_id]
  have h2 := flatten_blocks (sectionCountAt pages) (List.range pages.length) 1
    (List.nodup_range _)
  simp only [startIdOf]
  rw [h2, range_map_sectionCountAt]
  rfl

theorem assembleSched_map_id_perm (pages : List PageData) (sched : List Nat)
    (h : sched.Perm (List.range pages.length)) :
    ((assembleSched pages sched).map Doc.id).Perm (List.range' 1 (totalSections pages)) := by
  rw [assembleSched_map_id]
  have hnd : sched.Nodup := (h.nodup_iff).mpr (List.nodup_range _)
  have hperm : ((List.range pages.length).map
        (fun i => List.range' (startIdOf pages sched i) (sectionCountAt pages i))).Perm
      (sched.map (fun i => List.range' (startIdOf pages sched i) (sectionCountAt pages i))) :=
    (h.symm).map _
  refine (hperm.flatten).trans ?_
  have h2 := flatten_blocks (sectionCountAt pages) sched 1 hnd
  simp only [startIdOf]
  rw [h2]
  have h3 : (sched.map (sectionCountAt pages)).sum
      = ((List.range pages.length).map (sectionCountAt pages)).sum :=
    (h.map _).sum_eq
  rw [h3, range_map_sectionCountAt]
  exact List.Perm.refl _

/-! ### Helper lemmas about the tokenizer and prefix matching -/

theorem except_bind_ok {α β ε : Type} (a : α) (f : α → Except ε β) :
    (Except.ok a >>= f) = f a := rfl

theorem except_bind_error {α β ε : Type} (e : ε) (f : α → Except ε β) :
    ((Except.error e : Except ε α) >>= f) = (Except.error e : Except ε β) := rfl

theorem splitRunsFuel_tokens (p : Char → Bool) :
    ∀ (fuel : Nat) (cs : List Char), ∀ t ∈ splitRunsFuel p fuel cs,
      t.all (fun c => !(p c)) = true := by
  intro fuel
  induction fuel with
  | zero => intro cs t ht; simp [splitRunsFuel] at ht
  | succ fuel ih =>
    intro cs t ht
    rw [splitRunsFuel] at ht
    cases hdrop : cs.dropWhile (fun c => !(p c)) with
    | nil =>
      rw [hdrop] at ht
      simp only [List.mem_singleton] at ht
      subst ht
      rw [List.all_eq_true]
      intro c hc
      simpa using List.mem_takeWhile_imp hc
    | cons r rs =>
      rw [hdrop] at ht
      rcases List.mem_cons.mp ht with h1 | h1
      · subst h1
        rw [List.all_eq_true]
        intro c hc
        simpa using List.mem_takeWhile_imp hc
      · exact ih (rs.dropWhile p) t h1

theorem splitRuns_tokens (p : Char → Bool) (cs : List Char) :
    ∀ t ∈ splitRuns p cs, t.all (fun c => !(p c)) = true :=
  fun t ht => splitRunsFuel_tokens p (cs.length + 1) cs t ht

theorem zhTokenize_no_empty (sepChar : Char → Bool) (s : String) :
    (zhTokenize sepChar s).all (fun t => t != "") = true := by
  rw [List.all_eq_true]
  intro t ht
  exact (List.mem_filter.mp ht).2

theorem zhTokenize_no_separator (sepChar : Char → Bool) (s : String) :
    (zhTokenize sepChar s).all (fun t => t.data.all (fun c => !(sepChar c))) = true := by
  rw [List.all_eq_true]
  intro t ht
  have h1 := (List.mem_filter.mp ht).1
  rcases List.mem_map.mp h1 with ⟨cs, hcs, hmk⟩
  have h2 := splitRuns_tokens sepChar _ cs hcs
  rw [← hmk]
  exact h2

theorem slash_data : "/".data = ['/'] := rfl

theorem urlMatchesPrefix_ok (url pfx : String) (b : Bool)
    (h : urlMatchesPrefix url pfx = Except.ok b) :
    jsStartsWith pfx "/" = false ∧ jsEndsWith pfx "/" = false
      ∧ b = (pfx == "" || url == pfx || jsStartsWith url (pfx ++ "/")) := by
  rw [urlMatchesPrefix] at h
  by_cases h1 : jsStartsWith pfx "/" = true
  · rw [if_pos h1] at h
    cases h
  · rw [if_neg h1] at h
    by_cases h2 : jsEndsWith pfx "/" = true
    · rw [if_pos h2] at h
      cases h
    · rw [if_neg h2, Except.ok.injEq] at h
      exact ⟨by simpa using h1, by simpa using h2, h.symm⟩

theorem urlMatchesPrefix_self (pfx : String) (b : Bool)
    (h : urlMatchesPrefix pfx pfx = Except.ok b) : b = true := by
  rcases urlMatchesPrefix_ok _ _ _ h with ⟨_, _, hv⟩
  rw [hv]
  simp

theorem matches_of_extension (route base suffix : String) (b : Bool)
    (hext : urlMatchesPrefix route (trimLeadingSlash (base ++ "/" ++ suffix)) = Except.ok true)
    (hbase : urlMatchesPrefix route base = Except.ok b) :
    b = true := by
  rcases urlMatchesPrefix_ok _ _ _ hbase with ⟨hb1, hb2, hbv⟩
  by_cases hb0 : base = ""
  · subst hb0
    simpa using hbv
  · have hdata : base.data ≠ [] := fun hd => hb0 (String.ext hd)
    obtain ⟨c0, cs0, hcons⟩ : ∃ c0 cs0, base.data = c0 :: cs0 := by
      cases hx : base.data with
      | nil => exact absurd hx hdata
      | cons a l => exact ⟨a, l, rfl⟩
    have hc0ne : c0 ≠ '/' := by
      intro he
      rw [jsStartsWith, slash_data, hcons, he] at hb1
      simp [List.isPrefixOf] at hb1
    have hc0 : ('/' == c0) = false := by
      simp only [beq_eq_false_iff_ne, ne_eq]
      exact fun he => hc0ne he.symm
    have hnoslash : jsStartsWith (base ++ "/" ++ suffix) "/" = false := by
      rw [jsStartsWith, slash_data, String.data_append, String.data_append, hcons]
      simp [List.isPrefixOf, hc0]
    have htrim : trimLeadingSlash (base ++ "/" ++ suffix) = base ++ "/" ++ suffix := by
      rw [trimLeadingSlash, hnoslash]
      simp
    rw [htrim] at hext
    rcases urlMatchesPrefix_ok _ _ _ hext with ⟨_, _, hev⟩
    have hbp : (base ++ "/").data <+: (base ++ "/" ++ suffix).data := by
      rw [String.data_append (base ++ "/") suffix]
      exact List.prefix_append _ _
    have hev' := hev.symm
    rw [Bool.or_eq_true, Bool.or_eq_true] at hev'
    have hkey : jsStartsWith route (base ++ "/") = true := by
      rcases hev' with (hx | hx) | hx
      · have hxe : (base ++ "/" ++ suffix) = "" := beq_iff_eq.mp hx
        have hd := congrArg String.data hxe
        rw [String.data_append, String.data_append, hcons] at hd
        simp at hd
      · have hre : route = base ++ "/" ++ suffix := beq_iff_eq.mp hx
        rw [jsStartsWith, hre]
        exact List.isPrefixOf_iff_prefix.mpr hbp
      · have h7 : (base ++ "/" ++ suffix ++ "/").data <+: route.data := by
          rw [jsStartsWith] at hx
          exact List.isPrefixOf_iff_prefix.mp hx
        have h6 : (base ++ "/" ++ suffix).data <+: (base ++ "/" ++ suffix ++ "/").data := by
          rw [String.data_append (base ++ "/" ++ suffix) "/"]
          exact List.prefix_append _ _
        rw [jsStartsWith]
        exact List.isPrefixOf_iff_prefix.mpr (hbp.trans (h6.trans h7))
    rw [hbv, hkey]
    simp

/-! ### Helper lemmas about the classification loops -/

theorem matches_base_of_tags (route : String) (pc : PluginCfg) (mb : Bool)
    (hx : urlMatchesPrefix route (tagsFullOf pc) = Except.ok true)
    (hm : urlMatchesPrefix route (docsBaseOf pc) = Except.ok mb) : mb = true := by
  unfold tagsFullOf at hx
  exact matches_of_extension route (docsBaseOf pc)
    (trimLeadingSlash (trimTrailingSlash pc.tagsBasePath)) mb hx hm

theorem matches_base_of_debug (route : String) (pc : PluginCfg) (mb : Bool)
    (hx : urlMatchesPrefix route (debugFullOf pc) = Except.ok true)
    (hm : urlMatchesPrefix route (docsBaseOf pc) = Except.ok mb) : mb = true := by
  unfold debugFullOf at hx
  have hsplit : (docsBaseOf pc ++ "/__docusaurus") = (docsBaseOf pc ++ "/" ++ "__docusaurus") := by
    rw [String.append_assoc]
    rfl
  rw [hsplit] at hx
  exact matches_of_extension route (docsBaseOf pc) "__docusaurus" mb hx hm

theorem docsLoop_cons_eq (route : String) (pc : PluginCfg) (rest : List PluginCfg)
    (hm : urlMatchesPrefix route (docsBaseOf pc) = Except.ok true) :
    docsLoop route (pc :: rest) = docsLoop route [pc] := by
  conv_lhs => rw [docsLoop, hm, except_bind_ok, if_pos rfl]
  conv_rhs => rw [docsLoop, hm, except_bind_ok, if_pos rfl]

theorem blogLoop_cons_eq (route : String) (pc : PluginCfg) (rest : List PluginCfg)
    (hm : urlMatchesPrefix route (docsBaseOf pc) = Except.ok true) :
    blogLoop route (pc :: rest) = blogLoop route [pc] := by
  conv_lhs => rw [blogLoop, hm, except_bind_ok, if_pos rfl]
  conv_rhs => rw [blogLoop, hm, except_bind_ok, if_pos rfl]

theorem pagesLoop_cons_eq (route : String) (pc : PluginCfg) (rest : List PluginCfg)
    (hm : urlMatchesPrefix route (docsBaseOf pc) = Except.ok true) :
    pagesLoop route (pc :: rest) = pagesLoop route [pc] := by
  conv_lhs => rw [pagesLoop, hm, except_bind_ok, if_pos rfl]
  conv_rhs => rw [pagesLoop, hm, except_bind_ok, if_pos rfl]

theorem docsLoop_no_hit_of_excluded (route : String) (pc : PluginCfg) (rest : List PluginCfg)
    (hexc : urlMatchesPrefix route (tagsFullOf pc) = Except.ok true
      ∨ urlMatchesPrefix route (debugFullOf pc) = Except.ok true) :
    docsLoop route (pc :: rest) ≠ Except.ok LoopRes.hit := by
  intro hcon
  cases hm : urlMatchesPrefix route (docsBaseOf pc) with
  | error e =>
    rw [docsLoop, hm, except_bind_error] at hcon
    cases hcon
  | ok mb =>
    have hmb : mb = true := by
      rcases hexc with hx | hx
      · exact matches_base_of_tags route pc mb hx hm
      · exact matches_base_of_debug route pc mb hx hm
    subst hmb
    rw [docsLoop, hm, except_bind_ok, if_pos rfl] at hcon
    cases ht : urlMatchesPrefix route (tagsFullOf pc) with
    | error e =>
      rw [ht, except_bind_error] at hcon
      cases hcon
    | ok tb =>
      rw [ht, except_bind_ok] at hcon
      cases tb with
      | true =>
        rw [if_pos rfl] at hcon
        cases hcon
      | false =>
        rw [if_neg (by simp)] at hcon
        cases hd : urlMatchesPrefix route (debugFullOf pc) with
        | error e =>
          rw [hd, except_bind_error] at hcon
          cases hcon
        | ok db =>
          rw [hd, except_bind_ok] at hcon
          cases db with
          | true =>
            rw [if_pos rfl] at hcon
            cases hcon
          | false =>
            rcases hexc with hx | hx
            · rw [ht] at hx
              simp at hx
            · rw [hd] at hx
              simp at hx

theorem blogLoop_no_hit_of_excluded (route : String) (pc : PluginCfg) (rest : List PluginCfg)
    (hexc : route = docsBaseOf pc
      ∨ urlMatchesPrefix route (tagsFullOf pc) = Except.ok true
      ∨ urlMatchesPrefix route (debugFullOf pc) = Except.ok true) :
    blogLoop route (pc :: rest) ≠ Except.ok LoopRes.hit := by
  intro hcon
  cases hm : urlMatchesPrefix route (docsBaseOf pc) with
  | error e =>
    rw [blogLoop, hm, except_bind_error] at hcon
    cases hcon
  | ok mb =>
    have hmb : mb = true := by
      rcases hexc with hx | hx | hx
      · rw [hx] at hm
        exact urlMatchesPrefix_self _ _ hm
      · exact matches_base_of_tags route pc mb hx hm
      · exact matches_base_of_debug route pc mb hx hm
    subst hmb
    rw [blogLoop, hm, except_bind_ok, if_pos rfl] at hcon
    cases hrb : (route == docsBaseOf pc) with
    | true =>
      rw [if_pos hrb] at hcon
      cases hcon
    | false =>
      rw [if_neg (by simp [hrb])] at hcon
      cases ht : urlMatchesPrefix route (tagsFullOf pc) with
      | error e =>
        rw [ht, except_bind_error] at hcon
        cases hcon
      | ok tb =>
        rw [ht, except_bind_ok] at hcon
        cases tb with
        | true =>
          rw [if_pos rfl] at hcon
          cases hcon
        | false =>
          rw [if_neg (by simp)] at hcon
          cases hd : urlMatchesPrefix route (debugFullOf pc) with
          | error e =>
            rw [hd, except_bind_error] at hcon
            cases hcon
          | ok db =>
            rw [hd, except_bind_ok] at hcon
            cases db with
            | true =>
              rw [if_pos rfl] at hcon
              cases hcon
            | false =>
              rcases hexc with hx | hx | hx
              · rw [hx] at hrb
                simp at hrb
              · rw [ht] at hx
                simp at hx
              · rw [hd] at hx
                simp at hx

theorem pagesLoop_no_hit_of_excluded (route : String) (pc : PluginCfg) (rest : List PluginCfg)
    (hexc : urlMatchesPrefix route (debugFullOf pc) = Except.ok true) :
    pagesLoop route (pc :: rest) ≠ Except.ok LoopRes.hit := by
  intro hcon
  cases hm : urlMatchesPrefix route (docsBaseOf pc) with
  | error e =>
    rw [pagesLoop, hm, except_bind_error] at hcon
    cases hcon
  | ok mb =>
    have hmb : mb = true := matches_base_of_debug route pc mb hexc hm
    subst hmb
    rw [pagesLoop, hm, except_bind_ok, if_pos rfl] at hcon
    cases hd : urlMatchesPrefix route (debugFullOf pc) with
    | error e =>
      rw [hd, except_bind_error] at hcon
      cases hcon
    | ok db =>
      rw [hd, except_bind_ok] at hcon
      cases db with
      | true =>
        rw [if_pos rfl] at hcon
        cases hcon
      | false =>
        rw [hd] at hexc
        simp at hexc

/-! ### Claim theorems -/

/-- C1: the assembly phase advances the shared `nextDocId` counter when each
file read completes, not in logical route order.  On the same two-page input,
a run whose reads complete in issue order assigns ids `[1, 2]` to the
route-ordered documents, while a run whose second read completes first
assigns `[2, 1]`: the id-to-document association differs between the two
runs, so the output is not reproducible across runs with identical input. -/
theorem c1_completion_order_changes_ids :
    (assembleSched demoPages [0, 1]).map Doc.id = [1, 2]
      ∧ (assembleSched demoPages [1, 0]).map Doc.id = [2, 1]
      ∧ assembleSched demoPages [0, 1] ≠ assembleSched demoPages [1, 0] := by
  refine ⟨by decide, by decide, by decide⟩

/-- C2 counterexample: the completion order of the concurrent reads is
observable in the serialized artifact.  Under the reversed (and reachable)
completion schedule `[1, 0]` of the two-page demo build, the `"default"`
partition's summaries carry ids `[2, 1]` — not ascending — so the claim's
"ascending id order" invariant fails on a program-reachable artifact. -/
theorem c2_out_of_order_not_ascending :
    ([1, 0] : List Nat).Perm (List.range demoPages.length)
      ∧ ((artifactSummaries false
            ((lookupTag (documentsByDocusaurusTag (assembleSched demoPages [1, 0]))
              "default").getD [])).map MyDocument.id) = [2, 1]
      ∧ ¬ ([2, 1] : List Nat).Sorted (· < ·) :=
  ⟨by decide, by decide, by decide⟩

/-- C2 amended: for every completion order of the reads and every partition
of the resulting document list, the index's internal reference list is
exactly the stringified ids of the summaries in the same order and those ids
have no repeats — every reference resolves to exactly one summary and every
summary is referenced; the summaries additionally appear in strictly
ascending id order whenever the reads complete in issue (route) order.
(Under an out-of-order completion the summary order follows completion
order and need not be ascending, as the counterexample shows.) -/
theorem c2_artifact_referential_integrity (pages : List PageData) (sched : List Nat)
    (incl : Bool) (t : String) (g : List Doc)
    (hs : sched.Perm (List.range pages.length))
    (h : (t, g) ∈ documentsByDocusaurusTag (assembleSched pages sched)) :
    indexRefs g = (artifactSummaries incl g).map (fun summ => toString summ.id)
      ∧ ((artifactSummaries incl g).map MyDocument.id).Nodup
      ∧ (sched = List.range pages.length →
          ((artifactSummaries incl g).map MyDocument.id).Sorted (· < ·)) := by
  have hg : g = (assembleSched pages sched).filter (fun d => d.docusaurusTag == t) :=
    mem_grouping_eq_filter _ t g h
  have hmm : (artifactSummaries incl g).map MyDocument.id = g.map Doc.id := by
    rw [artifactSummaries, List.map_map]
    rfl
  refine ⟨?_, ?_, ?_⟩
  · rw [indexRefs, artifactSummaries, List.map_map]
    rfl
  · rw [hmm, hg]
    have hperm := assembleSched_map_id_perm pages sched hs
    have hnd : ((assembleSched pages sched).map Doc.id).Nodup :=
      (hperm.nodup_iff).mpr (List.nodup_range' _ _)
    have hsub : List.Sublist
        (((assembleSched pages sched).filter (fun d => d.docusaurusTag == t)).map Doc.id)
        ((assembleSched pages sched).map Doc.id) :=
      (List.filter_sublist _).map Doc.id
    exact List.Nodup.sublist hsub hnd
  · intro hseq
    subst hseq
    rw [hmm, hg]
    have hsorted : ((assembleSched pages (List.range pages.length)).map Doc.id).Sorted
        (· < ·) := by
      have hids := assemble_map_id pages
      rw [assemble] at hids
      rw [hids]
      exact List.pairwise_lt_range' _ _
    have hpw := (List.pairwise_map).mp hsorted
    have hpwf := hpw.filter (fun d => d.docusaurusTag == t)
    exact (List.pairwise_map).mpr hpwf

/-- C2 witness: the two-page demo build under issue-order completion has one
partition, keyed `"default"`, satisfying all three integrity conjuncts. -/
theorem c2_artifact_referential_integrity_witness :
    indexRefs (assemble demoPages)
        = (artifactSummaries false (assemble demoPages)).map (fun summ => toString summ.id)
      ∧ ((artifactSummaries false (assemble demoPages)).map MyDocument.id).Nodup
      ∧ (([0, 1] : List Nat) = List.range demoPages.length →
          ((artifactSummaries false (assemble demoPages)).map MyDocument.id).Sorted (· < ·)) :=
  c2_artifact_referential_integrity demoPages [0, 1] false "default" (assemble demoPages)
    (by decide) (by decide)

/-- C3 counterexample: the empty configured prefix (a base path of `/`, as the
pages plugin uses by default) accepts the route `docsx` even though `docsx`
neither equals the prefix nor starts with the prefix followed by `/` — the
claim's characterization fails at `p = ""`. -/
theorem c3_empty_prefix_matches_all :
    urlMatchesPrefix "docsx" "" = Except.ok true
      ∧ ("docsx" == "" || jsStartsWith "docsx" ("" ++ "/")) = false :=
  ⟨rfl, rfl⟩

/-- C3 amended: for every non-empty configured prefix, acceptance implies the
route equals the prefix or extends it across a `/` boundary; in particular
`docsx` does not match `docs` while `docs/intro` does.  (The empty prefix,
excluded here, accepts every route.) -/
theorem c3_exact_segment_prefix_match (url pfx : String) (b : Bool)
    (hp : pfx ≠ "") (h : urlMatchesPrefix url pfx = Except.ok b) (hb : b = true) :
    (url = pfx ∨ jsStartsWith url (pfx ++ "/") = true)
      ∧ urlMatchesPrefix "docsx" "docs" = Except.ok false
      ∧ urlMatchesPrefix "docs/intro" "docs" = Except.ok true := by
  refine ⟨?_, rfl, rfl⟩
  rcases urlMatchesPrefix_ok _ _ _ h with ⟨_, _, hv⟩
  rw [hb] at hv
  have hv' := hv.symm
  rw [Bool.or_eq_true, Bool.or_eq_true] at hv'
  rcases hv' with (hx | hx) | hx
  · exact absurd (beq_iff_eq.mp hx) hp
  · exact Or.inl (beq_iff_eq.mp hx)
  · exact Or.inr hx

/-- C3 witness: instantiation at `url = "docs/intro"`, `p = "docs"`. -/
theorem c3_exact_segment_prefix_match_witness :
    ("docs/intro" = "docs" ∨ jsStartsWith "docs/intro" ("docs" ++ "/") = true)
      ∧ urlMatchesPrefix "docsx" "docs" = Except.ok false
      ∧ urlMatchesPrefix "docs/intro" "docs" = Except.ok true :=
  c3_exact_segment_prefix_match "docs/intro" "docs" true (by decide) rfl rfl

/-- C4 counterexample: with a docs instance mounted at the site root
(`routeBasePath: "/"`, a supported docs-only configuration) and a blog at
`/blog`, the blog's tag-listing page `blog/tags/mytag` and the blog listing
page `blog` are both classified as docs output — so tag-listing pages and the
blog listing page do appear in classified output, against the claim. -/
theorem c4_blog_pages_leak_into_docs :
    classifyRoute rootDocsCfg "blog/tags/mytag" = Except.ok (some RouteType.docs)
      ∧ classifyRoute rootDocsCfg "blog" = Except.ok (some RouteType.docs)
      ∧ urlMatchesPrefix "blog/tags/mytag"
          (tagsFullOf { routeBasePath := "/blog", tagsBasePath := "/tags" }) = Except.ok true :=
  ⟨rfl, rfl, rfl⟩

/-- C4 amended: classification assigns at most one content type per route
(docs tried before blog before page, first matching plugin instance wins, the
instances after the first matching one are irrelevant); the 404 page is never
classified; and the exclusions hold relative to the plugin instance that wins
the match: a route under the first matching instance's tag-listing or debug
path is never a docs/blog hit, the first matching blog instance's listing
page is never a blog hit, and a route under the first matching pages
instance's debug path is never a page hit.  (A tag-listing or blog-listing
route can still be classified under an earlier-priority content type whose
base path also matches it, as the counterexample shows.) -/
theorem c4_route_classification (cfg : ClassifyCfg) (route : String)
    (pc : PluginCfg) (rest : List PluginCfg) :
    classifyRoute cfg "404.html" = Except.ok none
      ∧ (∀ t1 t2, classifyRoute cfg route = Except.ok (some t1) →
          classifyRoute cfg route = Except.ok (some t2) → t1 = t2)
      ∧ (urlMatchesPrefix route (docsBaseOf pc) = Except.ok true →
          docsLoop route (pc :: rest) = docsLoop route [pc]
            ∧ blogLoop route (pc :: rest) = blogLoop route [pc]
            ∧ pagesLoop route (pc :: rest) = pagesLoop route [pc])
      ∧ (urlMatchesPrefix route (tagsFullOf pc) = Except.ok true →
          docsLoop route (pc :: rest) ≠ Except.ok LoopRes.hit
            ∧ blogLoop route (pc :: rest) ≠ Except.ok LoopRes.hit)
      ∧ (urlMatchesPrefix route (debugFullOf pc) = Except.ok true →
          docsLoop route (pc :: rest) ≠ Except.ok LoopRes.hit
            ∧ blogLoop route (pc :: rest) ≠ Except.ok LoopRes.hit
            ∧ pagesLoop route (pc :: rest) ≠ Except.ok LoopRes.hit)
      ∧ (route = docsBaseOf pc → blogLoop route (pc :: rest) ≠ Except.ok LoopRes.hit)
      ∧ (cfg.indexDocs = true → docsLoop route cfg.docsPlugins = Except.ok LoopRes.hit →
          route ≠ "404.html" → classifyRoute cfg route = Except.ok (some RouteType.docs)) := by
  refine ⟨rfl, ?_, ?_, ?_, ?_, ?_, ?_⟩
  · intro t1 t2 h1 h2
    rw [h1] at h2
    injection h2 with h3
    injection h3
  · intro hm
    exact ⟨docsLoop_cons_eq route pc rest hm, blogLoop_cons_eq route pc rest hm,
      pagesLoop_cons_eq route pc rest hm⟩
  · intro hx
    exact ⟨docsLoop_no_hit_of_excluded route pc rest (Or.inl hx),
      blogLoop_no_hit_of_excluded route pc rest (Or.inr (Or.inl hx))⟩
  · intro hx
    exact ⟨docsLoop_no_hit_of_excluded route pc rest (Or.inr hx),
      blogLoop_no_hit_of_excluded route pc rest (Or.inr (Or.inr hx)),
      pagesLoop_no_hit_of_excluded route pc rest hx⟩
  · intro hx
    exact blogLoop_no_hit_of_excluded route pc rest (Or.inl hx)
  · intro hid hloop hne
    rw [classifyRoute, if_neg (by simp [hne]), if_pos hid, hloop, except_bind_ok]

/-- C4 witness: instantiation at the `/docs` instance and its tag page
`docs/tags/x`, discharging the base-match and tag-match hypotheses. -/
theorem c4_route_classification_witness :
    classifyRoute plainDocsCfg "404.html" = Except.ok none
      ∧ docsLoop "docs/tags/x" (plainDocsPlugin :: []) = docsLoop "docs/tags/x" [plainDocsPlugin]
      ∧ docsLoop "docs/tags/x" (plainDocsPlugin :: []) ≠ Except.ok LoopRes.hit := by
  have h := c4_route_classification plainDocsCfg "docs/tags/x" plainDocsPlugin []
  exact ⟨h.1, (h.2.2.1 rfl).1, (h.2.2.2.1 rfl).1⟩

/-- C5: grouping by `docusaurusTag` is an order-preserving partition: a tag's
group is exactly the input filtered to that tag (so every document lands in
exactly one group, nothing is dropped or duplicated and input order is
preserved within groups), the empty input yields an empty mapping, and the
groups' total size equals the input size. -/
theorem c5_grouping_partition (docs : List Doc) (t : String) :
    lookupTag (documentsByDocusaurusTag docs) t
      = (if docs.filter (fun d => d.docusaurusTag == t) = [] then none
         else some (docs.filter (fun d => d.docusaurusTag == t)))
      ∧ documentsByDocusaurusTag ([] : List Doc) = []
      ∧ ((documentsByDocusaurusTag docs).map Prod.snd).flatten.length = docs.length := by
  refine ⟨lookupTag_grouping docs t, rfl, ?_⟩
  have h := snd_flatten_foldl docs []
  simpa [documentsByDocusaurusTag] using h

/-- C6: for any completion order of the concurrent reads (any permutation of
the pages), the multiset of assigned ids is exactly the contiguous range
`1, ..., totalSections` with no repeats, the assembled list is the
route-ordered concatenation of per-page blocks, and each page's block carries
consecutive ids. -/
theorem c6_ids_contiguous (pages : List PageData) (sched : List Nat)
    (h : sched.Perm (List.range pages.length)) :
    ((assembleSched pages sched).map Doc.id).Perm (List.range' 1 (totalSections pages))
      ∧ (∀ s p, (pageDocs s p).map Doc.id = List.range' s p.sections.length)
      ∧ assembleSched pages sched
        = (pages.enum.map (fun ip => pageDocs (startIdOf pages sched ip.1) ip.2)).flatten :=
  ⟨assembleSched_map_id_perm pages sched h, fun s p => pageDocs_map_id s p, rfl⟩

/-- C6 witness: the demo build under the reversed completion order. -/
theorem c6_ids_contiguous_witness :
    ((assembleSched demoPages [1, 0]).map Doc.id).Perm
      (List.range' 1 (totalSections demoPages)) :=
  (c6_ids_contiguous demoPages [1, 0] (by decide)).1

/-- C7 counterexample: a document carrying an empty ancestor-category list
(a docs page at the sidebar root) still gets the indexed field — as the empty
string — because the source only tests JavaScript truthiness of the array,
and an empty array is truthy; the claim requires the field to be absent for a
document without ancestor categories. -/
theorem c7_empty_ancestor_list_field_present :
    sidebarParentCategoriesOf 2 (some ([] : List String)) = some ""
      ∧ ([] : List String).length = 0 :=
  ⟨rfl, rfl⟩

/-- C7 amended: with depth `N > 0` the field is present exactly when the
ancestor list is attached to the document (even when that list is empty,
producing the empty string); its value is the root-to-leaf list reversed to
leaf-to-root, truncated to the nearest `N`, space-joined; with depth 0 or no
attached list the field is absent; and the spec's example evaluates to
`"Install Setup"`. -/
theorem c7_sidebar_ancestor_field (n : Nat) (hn : 0 < n) (l : List String) :
    sidebarParentCategoriesOf n (some l)
        = some (String.intercalate " " (l.reverse.take n))
      ∧ sidebarParentCategoriesOf n none = none
      ∧ sidebarParentCategoriesOf 0 (some l) = none
      ∧ sidebarParentCategoriesOf 2 (some ["Guides", "Setup", "Install"])
        = some "Install Setup" := by
  refine ⟨?_, ?_, rfl, rfl⟩
  · rw [sidebarParentCategoriesOf, if_pos hn]
    rfl
  · rw [sidebarParentCategoriesOf, if_pos hn]
    rfl

/-- C7 witness: instantiation at depth 2 and the spec's example list. -/
theorem c7_sidebar_ancestor_field_witness :
    sidebarParentCategoriesOf 2 (some ["Guides", "Setup", "Install"])
        = some (String.intercalate " "
            ((["Guides", "Setup", "Install"] : List String).reverse.take 2))
      ∧ sidebarParentCategoriesOf 2 none = none
      ∧ sidebarParentCategoriesOf 0 (some ["Guides", "Setup", "Install"]) = none
      ∧ sidebarParentCategoriesOf 2 (some ["Guides", "Setup", "Install"])
        = some "Install Setup" :=
  c7_sidebar_ancestor_field 2 (by decide) ["Guides", "Setup", "Install"]

/-- C8: for language `zh` the plugin emits the fallback consuming tokenizer —
trim, lowercase, split on the default whitespace-or-hyphen separator, drop
empty tokens, no stemming or segmentation (the generated module text is the
plain `require` preamble plus exactly that tokenizer); `"你好-世界"` tokenizes
to `["你好", "世界"]`, and for every input no produced token is empty or
contains a separator character. -/
theorem c8_zh_fallback_tokenizer (s : String) :
    zhTokenize zhDefaultSeparator "你好-世界" = ["你好", "世界"]
      ∧ (zhTokenize zhDefaultSeparator s).all (fun t => t != "") = true
      ∧ (zhTokenize zhDefaultSeparator s).all
          (fun t => t.data.all (fun c => !(zhDefaultSeparator c))) = true
      ∧ buildGenerated true (LangConfig.single "zh") none
        = Except.ok ("// THIS FILE IS AUTOGENERATED\n// DO NOT EDIT THIS FILE!\n\nconst lunr = require(\"../../../lunr.js\");\nrequire(\"lunr-languages/lunr.stemmer.support\")(lunr);\nrequire(\"lunr-languages/lunr.zh\")(lunr);\nexport const tokenize = (input) => input.trim().toLowerCase()\n  .split(/[\\s\\-]+/)\n  .filter(each => !!each);\nexport const mylunr = lunr;\n") :=
  ⟨rfl, zhTokenize_no_empty _ _, zhTokenize_no_separator _ _, rfl⟩

/-- C9 counterexample: a multi-language configuration containing `ja`
together with a custom `lunr.tokenizerSeparator` does NOT raise the
validation error — plugin construction succeeds — because the source only
compares the post-collapse `language` value against the scalar strings
`"ja"`/`"th"`, which an array never equals. -/
theorem c9_multi_language_separator_accepted :
    (buildGenerated true (LangConfig.multi ["ja", "fr"]) (some "/[,]/")).isOk = true :=
  rfl

/-- C9 amended: the fatal separator-incompatibility error is raised exactly
for the scalar languages `ja` and `th` — including a one-element array
`[ja]`/`[th]`, which the constructor collapses to the scalar before the
check — while larger arrays containing `ja`/`th` are accepted (see the
counterexample). -/
theorem c9_scalar_ja_th_separator_rejected (styleNone : Bool) (c s : String)
    (h : c = "ja" ∨ c = "th") :
    buildGenerated styleNone (LangConfig.single c) (some s)
        = Except.error "The lunr.tokenizerSeparator option is not supported for 'ja' and 'th'"
      ∧ buildGenerated styleNone (LangConfig.multi [c]) (some s)
        = Except.error "The lunr.tokenizerSeparator option is not supported for 'ja' and 'th'" := by
  rcases h with h | h <;> subst h <;> exact ⟨rfl, rfl⟩

/-- C9 witness: instantiation at `ja` with a concrete separator. -/
theorem c9_scalar_ja_th_separator_rejected_witness :
    buildGenerated true (LangConfig.single "ja") (some "/[,]/")
        = Except.error "The lunr.tokenizerSeparator option is not supported for 'ja' and 'th'"
      ∧ buildGenerated true (LangConfig.multi ["ja"]) (some "/[,]/")
        = Except.error "The lunr.tokenizerSeparator option is not supported for 'ja' and 'th'" :=
  c9_scalar_ja_th_separator_rejected true "ja" "/[,]/" (Or.inl rfl)

/-- C10: configuring `language` as the one-element array `[c]` is identical
to configuring the scalar `c`: the generated tokenizer module text agrees for
every style/separator combination, the index-construction path agrees, and
the singleton array never takes the multi-language union path. -/
theorem c10_singleton_language_equivalence (styleNone : Bool) (c : String)
    (sep : Option String) :
    buildGenerated styleNone (LangConfig.multi [c]) sep
        = buildGenerated styleNone (LangConfig.single c) sep
      ∧ pluginIndexUse (LangConfig.multi [c]) = pluginIndexUse (LangConfig.single c)
      ∧ isMultiUse (pluginIndexUse (LangConfig.multi [c])) = false := by
  refine ⟨rfl, rfl, ?_⟩
  show isMultiUse (indexUseOf (LangConfig.single c)) = false
  rw [indexUseOf]
  cases hc : (c == "en")
  · rw [if_neg (by simp)]
    rfl
  · rw [if_pos rfl]
    rfl

end DSLA
